import Mathlib

/-!
Shallow embedding of the `crypto_order_book` Python library (files
`order_book.py`, `binary_search.py`, `bitfinex.py`, `poloniex.py`) and
proofs about the claims of its specification.

Modelling conventions:
* Python floats are modelled as `ℚ`: every operation the engine performs on
  prices and sizes is a comparison or an exact copy, never rounding
  arithmetic, so the ordered-field structure is all that matters.
* Python strings are modelled as `List Char` (`PyStr`); `str.lower`/`str.upper`
  are `List.map Char.toLower`/`Char.toUpper`.
* Python dicts are association lists with unique keys (`pyDictGet`/`pyDictSet`).
* A Python function that can raise returns `Except PyExc _`.  Methods that
  both mutate `self` and may raise return `State × Except PyExc _` so that a
  partial mutation made before the raise remains observable.
* Wall-clock time (`datetime.datetime.now()`) is passed in as an explicit
  integer parameter `now` measured in seconds.
-/

namespace CryptoOrderBook

/-- Python strings, as lists of characters. -/
abbrev PyStr := List Char

/-- `str.lower()`. -/
def pyLower (s : PyStr) : PyStr := s.map Char.toLower

/-- `str.upper()`. -/
def pyUpper (s : PyStr) : PyStr := s.map Char.toUpper

/-- A ladder entry `[rate, amount]` as stored in the sorted lists
(`order_book.py` lines 158, 172). -/
abbrev Entry := ℚ × ℚ

/-- A market key `(base_currency, quote_currency)`. -/
abbrev MarketKey := PyStr × PyStr

/-- The exceptions that can arise in the embedded code.
`orderBookError` and `orderBookOutOfSync` model the two exception classes of
the library's `exceptions` module (imported in `order_book.py` line 5; the
module itself only declares the two classes, per the spec's two caller-visible
error kinds).  `keyError`, `attributeError`, `typeError` and `indexError`
model the corresponding Python built-in exceptions. -/
inductive PyExc where
  | orderBookError (msg : PyStr)
  | orderBookOutOfSync (msg : PyStr)
  | keyError
  | attributeError (msg : PyStr)
  | typeError (msg : PyStr)
  | indexError
deriving DecidableEq

/-- The normalised update messages produced by the adapters, e.g.
`['update_ask', base, quote, rate, amount]` (`bitfinex.py` lines 192-204,
`poloniex.py` lines 198-211). -/
inductive Mutation where
  | heartbeat
  | update_ask (base_currency quote_currency : PyStr) (rate amount : ℚ)
  | update_bid (base_currency quote_currency : PyStr) (rate amount : ℚ)
  | remove_ask (base_currency quote_currency : PyStr) (rate : ℚ)
  | remove_bid (base_currency quote_currency : PyStr) (rate : ℚ)
deriving DecidableEq

/-- `d[k]` returning `None` when absent: association-list lookup. -/
def pyDictGet {α β : Type} [DecidableEq α] : List (α × β) → α → Option β
  | [], _ => none
  | (k', v') :: rest, k => if k' = k then some v' else pyDictGet rest k

/-- `d[k] = v`: replace the binding if present, append otherwise. -/
def pyDictSet {α β : Type} [DecidableEq α] : List (α × β) → α → β → List (α × β)
  | [], k, v => [(k, v)]
  | (k', v') :: rest, k, v =>
    if k' = k then (k, v) :: rest else (k', v') :: pyDictSet rest k v

/-- The per-market record created in `run()` (`order_book.py` lines 58-64). -/
structure MarketData where
  order_book_ask : List Entry
  order_book_bid : List Entry
  last_sequence : Option Int
  status : PyStr
deriving DecidableEq

/-- The mutable state of an `OrderBook` instance (`order_book.py` lines
28-42).  The socket handle is omitted: no claim depends on its value. -/
structure OBState where
  markets : List MarketKey
  timeout : Int
  data_store : List (MarketKey × MarketData)
  restart : Bool
  running : Bool
  soft_delete_fail : Bool
  last_heartbeat : Int
deriving DecidableEq

/-- `OrderBook.__init__` (`order_book.py` lines 20-42), with the wall clock
for `datetime.datetime.now()` passed as `now`. -/
def OrderBook_init (markets : List MarketKey) (timeout : Int) (now : Int) : OBState :=
  { markets := markets
    timeout := timeout
    data_store := []
    restart := false
    running := true
    soft_delete_fail := false
    last_heartbeat := now }

/-- The `data_store` built at the top of each outer `run()` iteration
(`order_book.py` lines 57-64): one record per configured market with empty
ladders, no sequence number and status `'inactive'`. -/
def initialise_data_store (markets : List MarketKey) : List (MarketKey × MarketData) :=
  markets.map fun p =>
    (p, { order_book_ask := []
          order_book_bid := []
          last_sequence := none
          status := "inactive".toList })

/-- The loop of `get_index` (`binary_search.py` lines 15-38).  Python's
`int((index_left + index_right) / 2)` truncates toward zero; every call
reachable from `get_index` has `0 ≤ index_left ≤ index_middle ≤ index_right <
search_list.length`, so the operands are non-negative, truncation agrees with
Lean's integer division, and the list access is always in range (the `none`
fallback of the inner match is unreachable from `get_index`). -/
def giLoop (find_rate : ℚ) (search_list : List Entry) (reverse_sort : Bool)
    (index_left index_right : Int) : Option Nat :=
  -- index_middle = (index_left + index_right) / 2, written out at each use
  if index_left ≤ index_right then
    match search_list.get? ((index_left + index_right) / 2).toNat with
    | none => none
    | some entry =>
      if entry.1 = find_rate then some ((index_left + index_right) / 2).toNat
      else if reverse_sort then
        if find_rate > entry.1 then
          giLoop find_rate search_list reverse_sort index_left
            ((index_left + index_right) / 2 - 1)
        else
          giLoop find_rate search_list reverse_sort
            ((index_left + index_right) / 2 + 1) index_right
      else
        if find_rate < entry.1 then
          giLoop find_rate search_list reverse_sort index_left
            ((index_left + index_right) / 2 - 1)
        else
          giLoop find_rate search_list reverse_sort
            ((index_left + index_right) / 2 + 1) index_right
  else none
termination_by (index_right + 1 - index_left).toNat
decreasing_by all_goals omega

/-- `get_index` (`binary_search.py` lines 5-38): binary search for a rate in
an order-book list; `none` models the Python return value `False`. -/
def get_index (find_rate : ℚ) (search_list : List Entry) (reverse_sort : Bool) : Option Nat :=
  giLoop find_rate search_list reverse_sort 0 ((search_list.length : Int) - 1)

/-- `sortedcontainers.SortedListWithKey(key=lambda val: val[0]).add`: insert
keeping the list ascending in the first component (ask ladder,
`order_book.py` line 60). -/
def addAsc (e : Entry) : List Entry → List Entry
  | [] => [e]
  | x :: xs => if e.1 < x.1 then e :: x :: xs else x :: addAsc e xs

/-- `sortedcontainers.SortedListWithKey(key=lambda val: -val[0]).add`: insert
keeping the list descending in the first component (bid ladder,
`order_book.py` line 61). -/
def addDesc (e : Entry) : List Entry → List Entry
  | [] => [e]
  | x :: xs => if e.1 > x.1 then e :: x :: xs else x :: addDesc e xs

/-- `OrderBook.update` (`order_book.py` lines 135-202).  `update_content` is
the decoded mutation, `last_update` the flag passed on the final mutation of
a batch.  Accessing `self.data_store[market]` for an unknown market raises
`KeyError` exactly as in Python. -/
def update (st : OBState) (now : Int) (update_content : Mutation) (last_update : Bool) :
    Except PyExc OBState :=
  -- line 145: self.last_heartbeat = datetime.datetime.now()
  let st := { st with last_heartbeat := now }
  match update_content with
  | .heartbeat => .ok st
  | .update_ask base quote rate amount =>
    match pyDictGet st.data_store (base, quote) with
    | none => .error .keyError
    | some md =>
      let book :=
        match get_index rate md.order_book_ask false with
        | none => addAsc (rate, amount) md.order_book_ask
        | some index => md.order_book_ask.set index (rate, amount)
      let md := { md with order_book_ask := book }
      let md :=
        if last_update ∧ md.status ≠ "active".toList then
          { md with status := "active".toList }
        else md
      .ok { st with data_store := pyDictSet st.data_store (base, quote) md }
  | .update_bid base quote rate amount =>
    match pyDictGet st.data_store (base, quote) with
    | none => .error .keyError
    | some md =>
      let book :=
        match get_index rate md.order_book_bid true with
        | none => addDesc (rate, amount) md.order_book_bid
        | some index => md.order_book_bid.set index (rate, amount)
      let md := { md with order_book_bid := book }
      let md :=
        if last_update ∧ md.status ≠ "active".toList then
          { md with status := "active".toList }
        else md
      .ok { st with data_store := pyDictSet st.data_store (base, quote) md }
  | .remove_ask base quote rate =>
    match pyDictGet st.data_store (base, quote) with
    | none => .error .keyError
    | some md =>
      match get_index rate md.order_book_ask false with
      | none =>
        -- lines 184-188: log the failed delete and set the restart flag
        if ¬ st.soft_delete_fail then .ok { st with restart := true } else .ok st
      | some index =>
        let md := { md with order_book_ask := md.order_book_ask.eraseIdx index }
        .ok { st with data_store := pyDictSet st.data_store (base, quote) md }
  | .remove_bid base quote rate =>
    match pyDictGet st.data_store (base, quote) with
    | none => .error .keyError
    | some md =>
      match get_index rate md.order_book_bid true with
      | none =>
        if ¬ st.soft_delete_fail then .ok { st with restart := true } else .ok st
      | some index =>
        let md := { md with order_book_bid := md.order_book_bid.eraseIdx index }
        .ok { st with data_store := pyDictSet st.data_store (base, quote) md }

/-- The batch-application step of the receive loop (`order_book.py` lines
112-115): every mutation but the last is applied with `last_update = False`,
the last with `last_update = True`. -/
def applyBatch (st : OBState) (now : Int) : List Mutation → Except PyExc OBState
  | [] => .ok st
  | [m] => update st now m true
  | m :: rest =>
    match update st now m false with
    | .error e => .error e
    | .ok st' => applyBatch st' now rest

/-- Iterated batches, mirroring the receive loop (`order_book.py` line 101):
processing stops once the `restart` flag is set. -/
def applyBatches (st : OBState) (now : Int) : List (List Mutation) → Except PyExc OBState
  | [] => .ok st
  | b :: rest =>
    if st.restart then .ok st
    else
      match applyBatch st now b with
      | .error e => .error e
      | .ok st' => applyBatches st' now rest

/-- Python's `<=` on the two-element lists stored in the ladders
(lexicographic): `[a1, a2] <= [b1, b2]` iff `a1 < b1 ∨ (a1 = b1 ∧ a2 ≤ b2)`.
`verify_status` compares whole entries with it (`order_book.py` line 243). -/
def entryLe (a b : Entry) : Bool :=
  decide (a.1 < b.1 ∨ (a.1 = b.1 ∧ a.2 ≤ b.2))

/-- `OrderBook.verify_status` (`order_book.py` lines 204-249).  Returns the
(possibly mutated) state together with `ok` or the raised exception.  Note
that the market-existence check of line 220 uses the arguments exactly as
given while the crossing check of lines 241-244 lowercases them, and that the
crossing check compares the full `[price, size]` entries with Python list
comparison. -/
def verify_status (st : OBState) (now : Int) (base_currency quote_currency : PyStr)
    (last_heartbeat_interval : Int) : OBState × Except PyExc Unit :=
  -- line 215: the data store is always a dict here, so only emptiness matters
  if st.data_store.length = 0 then
    (st, .error (.orderBookOutOfSync "Order book is initialising".toList))
  else
    match pyDictGet st.data_store (base_currency, quote_currency) with
    | none =>
      (st, .error (.orderBookError ("The market ".toList ++ pyUpper base_currency ++
        " - ".toList ++ pyUpper quote_currency ++ " does not exist".toList)))
    | some md =>
      if st.restart then
        (st, .error (.orderBookOutOfSync "Restart initialised".toList))
      else if md.status ≠ "active".toList then
        (st, .error (.orderBookOutOfSync "Order book is not active".toList))
      else if now > st.last_heartbeat + last_heartbeat_interval then
        -- line 237's message interpolates the elapsed seconds; the number is
        -- elided from the modelled message
        (st, .error (.orderBookOutOfSync "No update in the entire order book".toList))
      else
        match pyDictGet st.data_store (pyLower base_currency, pyLower quote_currency) with
        | none => (st, .error .keyError)
        | some mdl =>
          match mdl.order_book_ask.head?, mdl.order_book_bid.head? with
          | some a0, some b0 =>
            if entryLe a0 b0 then
              ({ st with restart := true },
               .error (.orderBookOutOfSync "Inconsistent data in order book".toList))
            else (st, .ok ())
          | _, _ => (st, .ok ())

/-- `OrderBook.get_top_asks` (`order_book.py` lines 312-332). -/
def get_top_asks (st : OBState) (now : Int) (base_currency quote_currency : PyStr)
    (amount : Int) (last_heartbeat_interval : Int) : OBState × Except PyExc (List Entry) :=
  match verify_status st now base_currency quote_currency last_heartbeat_interval with
  | (st', .error e) => (st', .error e)
  | (st', .ok _) =>
    if amount < 1 ∨ amount > 5000 then
      (st', .error (.orderBookError
        "The number of requested asks should be an integer between 1 and 5000".toList))
    else
      match pyDictGet st'.data_store (pyLower base_currency, pyLower quote_currency) with
      | none =>
        (st', .error (.orderBookError ("Unknown currency pair ".toList ++
          pyUpper base_currency ++ " - ".toList ++ pyUpper quote_currency)))
      | some md => (st', .ok (md.order_book_ask.take amount.toNat))

/-- `OrderBook.get_top_bids` (`order_book.py` lines 334-354). -/
def get_top_bids (st : OBState) (now : Int) (base_currency quote_currency : PyStr)
    (amount : Int) (last_heartbeat_interval : Int) : OBState × Except PyExc (List Entry) :=
  match verify_status st now base_currency quote_currency last_heartbeat_interval with
  | (st', .error e) => (st', .error e)
  | (st', .ok _) =>
    if amount < 1 ∨ amount > 5000 then
      (st', .error (.orderBookError
        "The number of requested bids should be an integer between 1 and 5000".toList))
    else
      match pyDictGet st'.data_store (pyLower base_currency, pyLower quote_currency) with
      | none =>
        (st', .error (.orderBookError ("Unknown currency pair ".toList ++
          pyUpper base_currency ++ " - ".toList ++ pyUpper quote_currency)))
      | some md => (st', .ok (md.order_book_bid.take amount.toNat))

/-- `OrderBook.get_middle` (`order_book.py` lines 356-372).  Indexing `[0]`
into an empty top-of-book list raises `IndexError`. -/
def get_middle (st : OBState) (now : Int) (base_currency quote_currency : PyStr)
    (last_heartbeat_interval : Int) : OBState × Except PyExc ℚ :=
  match verify_status st now base_currency quote_currency last_heartbeat_interval with
  | (st', .error e) => (st', .error e)
  | (st', .ok _) =>
    match get_top_bids st' now base_currency quote_currency 1 last_heartbeat_interval with
    | (st2, .error e) => (st2, .error e)
    | (st2, .ok bids) =>
      match bids.head? with
      | none => (st2, .error .indexError)
      | some top_bid =>
        match get_top_asks st2 now base_currency quote_currency 1 last_heartbeat_interval with
        | (st3, .error e) => (st3, .error e)
        | (st3, .ok asks) =>
          match asks.head? with
          | none => (st3, .error .indexError)
          | some top_ask => (st3, .ok ((top_bid.1 + top_ask.1) / 2))

/-- The scan loop of `get_ask_rate_amount` (`order_book.py` lines 398-413):
return the stored size on an exact match, `0` once the scanned price exceeds
the target, and — falling off the end of the list — Python's implicit `None`,
modelled as `none`. -/
def askRateScan : List Entry → ℚ → Option ℚ
  | [], _ => none
  | entry :: rest, rate =>
    if entry.1 = rate then some entry.2
    else if entry.1 > rate then some 0
    else askRateScan rest rate

/-- The scan loop of `get_bid_rate_amount` (`order_book.py` lines 439-454). -/
def bidRateScan : List Entry → ℚ → Option ℚ
  | [], _ => none
  | entry :: rest, rate =>
    if entry.1 = rate then some entry.2
    else if entry.1 < rate then some 0
    else bidRateScan rest rate

/-- `OrderBook.get_ask_rate_amount` (`order_book.py` lines 374-413).  The
success value is `Option ℚ`: `some` a number returned by the loop, `none` for
the implicit `None` when the loop exhausts the ladder. -/
def get_ask_rate_amount (st : OBState) (now : Int) (base_currency quote_currency : PyStr)
    (rate : ℚ) (last_heartbeat_interval : Int) : OBState × Except PyExc (Option ℚ) :=
  match verify_status st now base_currency quote_currency last_heartbeat_interval with
  | (st', .error e) => (st', .error e)
  | (st', .ok _) =>
    -- line 389: `rate` is always a float here, so only the sign check remains
    if rate < 0 then
      (st', .error (.orderBookError "The desired rate should be a positive float".toList))
    else
      match pyDictGet st'.data_store (pyLower base_currency, pyLower quote_currency) with
      | none =>
        (st', .error (.orderBookError ("Unknown currency pair ".toList ++
          pyUpper base_currency ++ " - ".toList ++ pyUpper quote_currency)))
      | some md => (st', .ok (askRateScan md.order_book_ask rate))

/-- `OrderBook.get_bid_rate_amount` (`order_book.py` lines 415-454). -/
def get_bid_rate_amount (st : OBState) (now : Int) (base_currency quote_currency : PyStr)
    (rate : ℚ) (last_heartbeat_interval : Int) : OBState × Except PyExc (Option ℚ) :=
  match verify_status st now base_currency quote_currency last_heartbeat_interval with
  | (st', .error e) => (st', .error e)
  | (st', .ok _) =>
    if rate < 0 then
      (st', .error (.orderBookError "The desired rate should be a positive float".toList))
    else
      match pyDictGet st'.data_store (pyLower base_currency, pyLower quote_currency) with
      | none =>
        (st', .error (.orderBookError ("Unknown currency pair ".toList ++
          pyUpper base_currency ++ " - ".toList ++ pyUpper quote_currency)))
      | some md => (st', .ok (bidRateScan md.order_book_bid rate))

/-- One failed iteration of the connection loop (`order_book.py` lines
73-87): increment `connection_tries`, recompute `connection_delay`, and raise
once `connection_tries > 2000`.  The pair is `(connection_tries,
connection_delay)`; the delay is the seconds slept before the next attempt. -/
def connect_attempt_fail (connection_tries connection_delay : Nat) :
    Except PyExc (Nat × Nat) :=
  let connection_tries := connection_tries + 1
  let connection_delay :=
    if connection_tries > 3 then min (connection_tries - 3) 5 else connection_delay
  if connection_tries > 2000 then
    .error (.orderBookError "Failed to connect with the websocket after 2000 tries".toList)
  else .ok (connection_tries, connection_delay)

/-- The connection-loop counters after `n` consecutive failed connection
attempts, starting from `connection_tries = 0`, `connection_delay = 0`
(`order_book.py` lines 54-55). -/
def connect_fail_loop : Nat → Except PyExc (Nat × Nat)
  | 0 => .ok (0, 0)
  | n + 1 =>
    match connect_fail_loop n with
    | .error e => .error e
    | .ok (t, d) => connect_attempt_fail t d

/-- One iteration of the receive loop (`order_book.py` lines 101-115) given
the outcome of `self.receive()`: an `OrderBookError` is caught and answered
by setting `restart` (lines 106-108); any other exception propagates out of
`run()` uncaught; a returned batch is applied with `applyBatch`. -/
def receive_step (st : OBState) (now : Int) (received : Except PyExc (List Mutation)) :
    Except PyExc OBState :=
  match received with
  | .error (.orderBookError _) => .ok { st with restart := true }
  | .error e => .error e
  | .ok updates => applyBatch st now updates

/-- `PoloniexOrderBook.verify_sequence` (`poloniex.py` lines 230-252).
Python's `!=` between the stored `last_sequence` (`None` or an int) and
`sequence_number - 1` is true when the stored value is `None` or a different
int.  On a detected gap the source first calls `self.log(...)` (line 245) —
but neither `PoloniexOrderBook` nor its parent `OrderBook` defines a `log`
method, so that call raises `AttributeError` before `self.restart = True`
(line 249) or the sequence store (line 252) can execute. -/
def verify_sequence (st : OBState) (sequence_number : Int)
    (base_currency quote_currency : PyStr) : OBState × Except PyExc Unit :=
  match pyDictGet st.data_store (base_currency, quote_currency) with
  | none => (st, .error .keyError)
  | some md =>
    if md.last_sequence ≠ some (sequence_number - 1) ∧ md.last_sequence ≠ none then
      (st, .error (.attributeError
        "PoloniexOrderBook object has no attribute log".toList))
    else
      let md := { md with last_sequence := some sequence_number }
      let store := pyDictSet st.data_store (base_currency, quote_currency) md
      ({ st with data_store := store }, .ok ())

/-- `BitfinexOrderBook.process_single_update` (`bitfinex.py` lines 174-204)
on the decoded triple `update = [rate, count, amount]`. -/
def process_single_update (base_currency quote_currency : PyStr)
    (rate count amount : ℚ) : Except PyExc Mutation :=
  if count = 0 then
    if amount = 1 then .ok (.remove_bid base_currency quote_currency rate)
    else if amount = -1 then .ok (.remove_ask base_currency quote_currency rate)
    else .error (.orderBookError "Unexpected data in delete command".toList)
  else
    if amount > 0 then .ok (.update_bid base_currency quote_currency rate amount)
    else .ok (.update_ask base_currency quote_currency rate |amount|)

/-- A decoded JSON value inside a Bitfinex update frame.  `int` and `num`
are kept apart because `process_update` checks `isinstance(channel_id, int)`. -/
inductive BfxVal where
  | int (n : Int)
  | num (q : ℚ)
  | str (s : PyStr)
  | list (l : List BfxVal)

/-- Numeric JSON values, as the rationals they denote. -/
def bfxNum : BfxVal → Option ℚ
  | .int n => some (n : ℚ)
  | .num q => some q
  | _ => none

/-- Extract the `[rate, count, amount]` triple of one update item. -/
def bfxTriple : BfxVal → Option (ℚ × ℚ × ℚ)
  | .list (v0 :: v1 :: v2 :: _) =>
    match bfxNum v0, bfxNum v1, bfxNum v2 with
    | some p, some c, some a => some (p, c, a)
    | _, _, _ => none
  | _ => none

/-- The additional state of a `BitfinexOrderBook` (`bitfinex.py` line 19). -/
structure BfxState where
  ob : OBState
  channel_id_to_market : List (Int × MarketKey)
deriving DecidableEq

/-- The additional state of a `PoloniexOrderBook` (`poloniex.py` line 21). -/
structure PoloState where
  ob : OBState
  market_id_to_market : List (Int × MarketKey)
deriving DecidableEq

/-- Decode the items of a Bitfinex snapshot list (`bitfinex.py` lines
166-167).  A malformed item would raise in Python (`TypeError`/`IndexError`);
well-formed frames never contain one. -/
def bfxDecodeItems (base_currency quote_currency : PyStr) :
    List BfxVal → Except PyExc (List Mutation)
  | [] => .ok []
  | item :: rest =>
    match bfxTriple item with
    | none => .error (.typeError "malformed update triple".toList)
    | some (p, c, a) =>
      match process_single_update base_currency quote_currency p c a with
      | .error e => .error e
      | .ok m =>
        match bfxDecodeItems base_currency quote_currency rest with
        | .error e => .error e
        | .ok ms => .ok (m :: ms)

/-- `BitfinexOrderBook.process_update` (`bitfinex.py` lines 141-172).  Line
158 accesses `self.channel_id_to_market[channel_id]` without a guard, so an
update for a channel id that was never recorded raises a bare `KeyError`. -/
def bitfinex_process_update (st : BfxState) (update_data : List BfxVal) :
    Except PyExc (List Mutation) :=
  if update_data.length < 2 then
    .error (.orderBookError "Received unexpected update message".toList)
  else
    match update_data.head? with
    | some (.int channel_id) =>
      match pyDictGet st.channel_id_to_market channel_id with
      | none => .error .keyError
      | some (base_currency, quote_currency) =>
        if update_data.length = 2 then
          match update_data.get? 1 with
          | some (.str s) =>
            if s = "hb".toList then .ok [.heartbeat] else .ok []
          | some (.list items) => bfxDecodeItems base_currency quote_currency items
          | _ => .ok []
        else if update_data.length = 4 then
          match update_data.get? 1, update_data.get? 2, update_data.get? 3 with
          | some v1, some v2, some v3 =>
            match bfxNum v1, bfxNum v2, bfxNum v3 with
            | some p, some c, some a =>
              match process_single_update base_currency quote_currency p c a with
              | .error e => .error e
              | .ok m => .ok [m]
            | _, _, _ => .error (.typeError "malformed update triple".toList)
          | _, _, _ => .ok []
        else .ok []
    | some _ => .error (.orderBookError "Invalid channel ID".toList)
    | none => .error (.orderBookError "Received unexpected update message".toList)

/-- `OrderBook.__init__` (`order_book.py` line 20) declares the parameters
`(self, markets, timeout=10)`: a call binding `n` positional arguments after
`self` succeeds exactly when `1 ≤ n ≤ 2`. -/
def orderBook_init_accepts (n : Nat) : Bool := 1 ≤ n && n ≤ 2

/-- `BitfinexOrderBook.__init__` (`bitfinex.py` lines 14-19): forwards the 2
positional arguments `(markets, timeout)` to `OrderBook.__init__`. -/
def BitfinexOrderBook_init (markets : List MarketKey) (timeout now : Int) :
    Except PyExc BfxState :=
  if orderBook_init_accepts 2 then
    .ok { ob := OrderBook_init markets timeout now, channel_id_to_market := [] }
  else .error (.typeError "init takes from 2 to 3 positional arguments".toList)

/-- `PoloniexOrderBook.__init__` (`poloniex.py` lines 15-21): line 18 forwards
the 4 positional arguments `(markets, timeout, log_method, log_level)` to
`OrderBook.__init__`, which accepts at most 2 — Python raises `TypeError`
before any state is constructed. -/
def PoloniexOrderBook_init (markets : List MarketKey) (timeout now : Int) :
    Except PyExc PoloState :=
  if orderBook_init_accepts 4 then
    .ok { ob := OrderBook_init markets timeout now, market_id_to_market := [] }
  else .error (.typeError
    "init takes from 2 to 3 positional arguments but 5 were given".toList)

/-- The I1/I2 ladder invariants for one market: strictly ascending ask
prices, strictly descending bid prices (this pairwise strictness is exactly
I2, and it subsumes I1, price uniqueness). -/
def LadderInv (md : MarketData) : Prop :=
  md.order_book_ask.Pairwise (fun a b => a.1 < b.1) ∧
  md.order_book_bid.Pairwise (fun a b => a.1 > b.1)

/-- The engine-wide invariant: every stored market satisfies `LadderInv`. -/
def StoreInv (st : OBState) : Prop :=
  ∀ k md, pyDictGet st.data_store k = some md → LadderInv md

/-! ### Association-list (Python dict) lemmas -/

lemma pyDictGet_set_self {α β : Type} [DecidableEq α] (l : List (α × β)) (k : α) (v : β) :
    pyDictGet (pyDictSet l k v) k = some v := by
  induction l with
  | nil => simp [pyDictGet, pyDictSet]
  | cons kv rest ih =>
    obtain ⟨a, b⟩ := kv
    by_cases h : a = k
    · simp [pyDictGet, pyDictSet, h]
    · simp [pyDictGet, pyDictSet, h, ih]

lemma pyDictGet_set_ne {α β : Type} [DecidableEq α] (l : List (α × β)) (k k' : α) (v : β)
    (h : k' ≠ k) : pyDictGet (pyDictSet l k v) k' = pyDictGet l k' := by
  induction l with
  | nil => simp [pyDictGet, pyDictSet, Ne.symm h]
  | cons kv rest ih =>
    obtain ⟨a, b⟩ := kv
    by_cases hk : a = k
    · subst hk
      simp [pyDictGet, pyDictSet, Ne.symm h]
    · simp [pyDictGet, pyDictSet, hk, ih]

lemma pyDictGet_mem {α β : Type} [DecidableEq α] {l : List (α × β)} {k : α} {v : β}
    (h : pyDictGet l k = some v) : (k, v) ∈ l := by
  induction l with
  | nil => simp [pyDictGet] at h
  | cons kv rest ih =>
    obtain ⟨a, b⟩ := kv
    by_cases hk : a = k
    · subst hk
      simp only [pyDictGet, if_pos rfl] at h
      obtain rfl := Option.some_injective _ h
      exact List.mem_cons_self _ _
    · simp only [pyDictGet, if_neg hk] at h
      exact List.mem_cons_of_mem _ (ih h)

/-! ### Binary-search (`get_index`) correctness -/

lemma pairwise_of_get? {α : Type} {R : α → α → Prop} {l : List α} (hs : l.Pairwise R)
    {i j : Nat} (hij : i < j) {a b : α} (ha : l.get? i = some a) (hb : l.get? j = some b) :
    R a b := by
  rw [List.get?_eq_some] at ha hb
  obtain ⟨hi, rfl⟩ := ha
  obtain ⟨hj, rfl⟩ := hb
  exact List.pairwise_iff_get.mp hs ⟨i, hi⟩ ⟨j, hj⟩ hij

lemma giLoop_stop (f : ℚ) (l : List Entry) (rev : Bool) (il ir : Int)
    (h : ¬ il ≤ ir) : giLoop f l rev il ir = none := by
  rw [giLoop]
  simp [h]

/-- Soundness of the search loop: a returned index holds an entry whose rate
is the searched rate. -/
lemma giLoop_some (f : ℚ) (l : List Entry) (rev : Bool) :
    ∀ (n : Nat) (il ir : Int), (ir + 1 - il).toNat = n →
      ∀ i, giLoop f l rev il ir = some i →
        ∃ e, l.get? i = some e ∧ e.1 = f := by
  intro n
  induction n using Nat.strong_induction_on with
  | _ n IH =>
    intro il ir hn i h
    by_cases hle : il ≤ ir
    · rw [giLoop, if_pos hle] at h
      cases hget : l.get? ((il + ir) / 2).toNat with
      | none => rw [hget] at h; exact absurd h (by simp)
      | some entry =>
        rw [hget] at h
        dsimp only at h
        by_cases heq : entry.1 = f
        · rw [if_pos heq] at h
          obtain rfl := Option.some_injective _ h
          exact ⟨entry, hget, heq⟩
        · rw [if_neg heq] at h
          cases rev with
          | false =>
            simp only [Bool.false_eq_true, if_false] at h
            by_cases hlt : f < entry.1
            · rw [if_pos hlt] at h
              exact IH _ (by omega) il ((il + ir) / 2 - 1) rfl i h
            · rw [if_neg hlt] at h
              exact IH _ (by omega) ((il + ir) / 2 + 1) ir rfl i h
          | true =>
            simp only [if_true] at h
            by_cases hgt : f > entry.1
            · rw [if_pos hgt] at h
              exact IH _ (by omega) il ((il + ir) / 2 - 1) rfl i h
            · rw [if_neg hgt] at h
              exact IH _ (by omega) ((il + ir) / 2 + 1) ir rfl i h
    · rw [giLoop_stop f l rev il ir hle] at h
      exact absurd h (by simp)

/-- Completeness on an ascending list: when the loop answers `none`, no index
of the searched interval holds the rate. -/
lemma giLoop_none_asc (f : ℚ) (l : List Entry)
    (hs : l.Pairwise (fun a b : Entry => a.1 < b.1)) :
    ∀ (n : Nat) (il ir : Int), (ir + 1 - il).toNat = n →
      0 ≤ il → ir < l.length →
      giLoop f l false il ir = none →
      ∀ (j : Nat) (e : Entry), il ≤ (j : Int) → (j : Int) ≤ ir →
        l.get? j = some e → e.1 ≠ f := by
  intro n
  induction n using Nat.strong_induction_on with
  | _ n IH =>
    intro il ir hn h0 hlen h j e hj1 hj2 hje
    by_cases hle : il ≤ ir
    · rw [giLoop, if_pos hle] at h
      have hmid1 : il ≤ (il + ir) / 2 := by omega
      have hmid2 : (il + ir) / 2 ≤ ir := by omega
      have hmidlen : ((il + ir) / 2).toNat < l.length := by omega
      rw [List.get?_eq_get hmidlen] at h
      dsimp only at h
      set entry := l.get ⟨((il + ir) / 2).toNat, hmidlen⟩ with hentry
      have hgetmid : l.get? ((il + ir) / 2).toNat = some entry :=
        List.get?_eq_get hmidlen
      by_cases heq : entry.1 = f
      · rw [if_pos heq] at h
        exact absurd h (by simp)
      · rw [if_neg heq] at h
        simp only [Bool.false_eq_true, if_false] at h
        by_cases hlt : f < entry.1
        · rw [if_pos hlt] at h
          rcases lt_or_ge (j : Int) ((il + ir) / 2) with hj | hj
          · exact IH _ (by omega) il ((il + ir) / 2 - 1) rfl h0 (by omega) h
              j e hj1 (by omega) hje
          · rcases eq_or_lt_of_le hj with hjeq | hjgt
            · have : j = ((il + ir) / 2).toNat := by omega
              rw [this, hgetmid] at hje
              obtain rfl := Option.some_injective _ hje
              exact heq
            · have hj' : ((il + ir) / 2).toNat < j := by omega
              have := pairwise_of_get? hs hj' hgetmid hje
              exact fun hc => absurd (hc ▸ this) (not_lt.mpr (le_of_lt hlt))
        · rw [if_neg hlt] at h
          have hlt' : entry.1 < f := lt_of_le_of_ne (not_lt.mp hlt) heq
          rcases lt_or_ge ((il + ir) / 2) (j : Int) with hj | hj
          · exact IH _ (by omega) ((il + ir) / 2 + 1) ir rfl (by omega) hlen h
              j e (by omega) hj2 hje
          · rcases eq_or_lt_of_le hj with hjeq | hjgt
            · have : j = ((il + ir) / 2).toNat := by omega
              rw [this, hgetmid] at hje
              obtain rfl := Option.some_injective _ hje
              exact heq
            · have hj' : j < ((il + ir) / 2).toNat := by omega
              have := pairwise_of_get? hs hj' hje hgetmid
              exact fun hc => absurd (hc ▸ this) (not_lt.mpr (le_of_lt hlt'))
    · omega

/-- Completeness on a descending list. -/
lemma giLoop_none_desc (f : ℚ) (l : List Entry)
    (hs : l.Pairwise (fun a b : Entry => a.1 > b.1)) :
    ∀ (n : Nat) (il ir : Int), (ir + 1 - il).toNat = n →
      0 ≤ il → ir < l.length →
      giLoop f l true il ir = none →
      ∀ (j : Nat) (e : Entry), il ≤ (j : Int) → (j : Int) ≤ ir →
        l.get? j = some e → e.1 ≠ f := by
  intro n
  induction n using Nat.strong_induction_on with
  | _ n IH =>
    intro il ir hn h0 hlen h j e hj1 hj2 hje
    by_cases hle : il ≤ ir
    · rw [giLoop, if_pos hle] at h
      have hmid1 : il ≤ (il + ir) / 2 := by omega
      have hmid2 : (il + ir) / 2 ≤ ir := by omega
      have hmidlen : ((il + ir) / 2).toNat < l.length := by omega
      rw [List.get?_eq_get hmidlen] at h
      dsimp only at h
      set entry := l.get ⟨((il + ir) / 2).toNat, hmidlen⟩ with hentry
      have hgetmid : l.get? ((il + ir) / 2).toNat = some entry :=
        List.get?_eq_get hmidlen
      by_cases heq : entry.1 = f
      · rw [if_pos heq] at h
        exact absurd h (by simp)
      · rw [if_neg heq] at h
        simp only [if_true] at h
        by_cases hgt : f > entry.1
        · rw [if_pos hgt] at h
          rcases lt_or_ge (j : Int) ((il + ir) / 2) with hj | hj
          · exact IH _ (by omega) il ((il + ir) / 2 - 1) rfl h0 (by omega) h
              j e hj1 (by omega) hje
          · rcases eq_or_lt_of_le hj with hjeq | hjgt
            · have : j = ((il + ir) / 2).toNat := by omega
              rw [this, hgetmid] at hje
              obtain rfl := Option.some_injective _ hje
              exact heq
            · have hj' : ((il + ir) / 2).toNat < j := by omega
              have := pairwise_of_get? hs hj' hgetmid hje
              exact fun hc => absurd (hc ▸ this) (not_lt.mpr (le_of_lt hgt))
        · rw [if_neg hgt] at h
          have hgt' : f < entry.1 := lt_of_le_of_ne (not_lt.mp hgt) (Ne.symm heq)
          rcases lt_or_ge ((il + ir) / 2) (j : Int) with hj | hj
          · exact IH _ (by omega) ((il + ir) / 2 + 1) ir rfl (by omega) hlen h
              j e (by omega) hj2 hje
          · rcases eq_or_lt_of_le hj with hjeq | hjgt
            · have : j = ((il + ir) / 2).toNat := by omega
              rw [this, hgetmid] at hje
              obtain rfl := Option.some_injective _ hje
              exact heq
            · have hj' : j < ((il + ir) / 2).toNat := by omega
              have := pairwise_of_get? hs hj' hje hgetmid
              exact fun hc => absurd (hc ▸ this) (not_lt.mpr (le_of_lt hgt'))
    · omega

lemma get_index_some {f : ℚ} {l : List Entry} {rev : Bool} {i : Nat}
    (h : get_index f l rev = some i) : ∃ e, l.get? i = some e ∧ e.1 = f :=
  giLoop_some f l rev _ 0 ((l.length : Int) - 1) rfl i h

lemma get_index_none_asc {f : ℚ} {l : List Entry}
    (hs : l.Pairwise (fun a b : Entry => a.1 < b.1))
    (h : get_index f l false = none) : ∀ e ∈ l, e.1 ≠ f := by
  intro e he
  obtain ⟨j, hje⟩ := List.mem_iff_get?.mp he
  have hj : j < l.length := by
    rw [List.get?_eq_some] at hje
    exact hje.1
  exact giLoop_none_asc f l hs _ 0 ((l.length : Int) - 1) rfl (by omega) (by omega) h
    j e (by omega) (by omega) hje

lemma get_index_none_desc {f : ℚ} {l : List Entry}
    (hs : l.Pairwise (fun a b : Entry => a.1 > b.1))
    (h : get_index f l true = none) : ∀ e ∈ l, e.1 ≠ f := by
  intro e he
  obtain ⟨j, hje⟩ := List.mem_iff_get?.mp he
  have hj : j < l.length := by
    rw [List.get?_eq_some] at hje
    exact hje.1
  exact giLoop_none_desc f l hs _ 0 ((l.length : Int) - 1) rfl (by omega) (by omega) h
    j e (by omega) (by omega) hje

/-! ### Sorted-insert, set and erase preserve the ladder order -/

lemma mem_addAsc {e x : Entry} {l : List Entry} :
    x ∈ addAsc e l ↔ x = e ∨ x ∈ l := by
  induction l with
  | nil => simp [addAsc]
  | cons y ys ih =>
    by_cases h : e.1 < y.1
    · simp [addAsc, h, or_comm, or_assoc, or_left_comm]
    · simp [addAsc, h, ih]
      tauto

lemma mem_addDesc {e x : Entry} {l : List Entry} :
    x ∈ addDesc e l ↔ x = e ∨ x ∈ l := by
  induction l with
  | nil => simp [addDesc]
  | cons y ys ih =>
    by_cases h : e.1 > y.1
    · simp [addDesc, h, or_comm, or_assoc, or_left_comm]
    · simp [addDesc, h, ih]
      tauto

lemma addAsc_pairwise {e : Entry} {l : List Entry}
    (hs : l.Pairwise (fun a b : Entry => a.1 < b.1))
    (hne : ∀ x ∈ l, x.1 ≠ e.1) :
    (addAsc e l).Pairwise (fun a b : Entry => a.1 < b.1) := by
  induction l with
  | nil => simp [addAsc]
  | cons y ys ih =>
    rw [List.pairwise_cons] at hs
    obtain ⟨hy, hys⟩ := hs
    by_cases h : e.1 < y.1
    · rw [addAsc, if_pos h, List.pairwise_cons]
      refine ⟨?_, List.pairwise_cons.mpr ⟨hy, hys⟩⟩
      intro z hz
      rcases List.mem_cons.mp hz with rfl | hz'
      · exact h
      · exact lt_trans h (hy z hz')
    · rw [addAsc, if_neg h, List.pairwise_cons]
      have hye : y.1 < e.1 :=
        lt_of_le_of_ne (not_lt.mp h) (hne y (List.mem_cons_self y ys))
      refine ⟨?_, ih hys (fun x hx => hne x (List.mem_cons_of_mem _ hx))⟩
      intro z hz
      rcases mem_addAsc.mp hz with rfl | hz'
      · exact hye
      · exact hy z hz'

lemma addDesc_pairwise {e : Entry} {l : List Entry}
    (hs : l.Pairwise (fun a b : Entry => a.1 > b.1))
    (hne : ∀ x ∈ l, x.1 ≠ e.1) :
    (addDesc e l).Pairwise (fun a b : Entry => a.1 > b.1) := by
  induction l with
  | nil => simp [addDesc]
  | cons y ys ih =>
    rw [List.pairwise_cons] at hs
    obtain ⟨hy, hys⟩ := hs
    by_cases h : e.1 > y.1
    · rw [addDesc, if_pos h, List.pairwise_cons]
      refine ⟨?_, List.pairwise_cons.mpr ⟨hy, hys⟩⟩
      intro z hz
      rcases List.mem_cons.mp hz with rfl | hz'
      · exact h
      · exact lt_trans (hy z hz') h
    · rw [addDesc, if_neg h, List.pairwise_cons]
      have hye : e.1 < y.1 :=
        lt_of_le_of_ne (not_lt.mp h) (Ne.symm (hne y (List.mem_cons_self y ys)))
      refine ⟨?_, ih hys (fun x hx => hne x (List.mem_cons_of_mem _ hx))⟩
      intro z hz
      rcases mem_addDesc.mp hz with rfl | hz'
      · exact hye
      · exact hy z hz'

/-- Overwriting index `i` with an entry of the same rate leaves the list of
rates unchanged. -/
lemma map_fst_set {l : List Entry} {i : Nat} {e x : Entry}
    (hget : l.get? i = some x) (hfst : x.1 = e.1) :
    (l.set i e).map Prod.fst = l.map Prod.fst := by
  induction l generalizing i with
  | nil => simp [List.get?] at hget
  | cons y ys ih =>
    cases i with
    | zero =>
      simp only [List.get?] at hget
      obtain rfl := Option.some_injective _ hget
      simp [List.set, hfst]
    | succ j =>
      simp only [List.get?] at hget
      simp [List.set, ih hget]

lemma set_pairwise_fst {R : ℚ → ℚ → Prop} {l : List Entry} {i : Nat} {e x : Entry}
    (hget : l.get? i = some x) (hfst : x.1 = e.1)
    (hs : l.Pairwise (fun a b : Entry => R a.1 b.1)) :
    (l.set i e).Pairwise (fun a b : Entry => R a.1 b.1) := by
  have h1 : ((l.set i e).map Prod.fst).Pairwise R := by
    rw [map_fst_set hget hfst]
    exact List.pairwise_map.mpr hs
  exact List.pairwise_map.mp h1

lemma eraseIdx_pairwise {α : Type} {R : α → α → Prop} {l : List α} (i : Nat)
    (hs : l.Pairwise R) : (l.eraseIdx i).Pairwise R :=
  List.Pairwise.sublist (List.eraseIdx_sublist l i) hs

/-! ### The engine update preserves the ladder invariants (I1/I2) -/

lemma update_preserves_StoreInv {st : OBState} {now : Int} {m : Mutation}
    {last_update : Bool} {st' : OBState}
    (hinv : StoreInv st) (h : update st now m last_update = .ok st') :
    StoreInv st' := by
  cases m with
  | heartbeat =>
    simp only [update] at h
    obtain rfl := Except.ok.inj h
    exact fun k md hk => hinv k md hk
  | update_ask base quote rate amount =>
    simp only [update] at h
    cases hmd : pyDictGet st.data_store (base, quote) with
    | none => rw [hmd] at h; exact absurd h (by simp)
    | some md =>
      rw [hmd] at h
      dsimp only at h
      obtain ⟨hask, hbid⟩ := hinv (base, quote) md hmd
      have hbook : ∀ b, (b = (match get_index rate md.order_book_ask false with
          | none => addAsc (rate, amount) md.order_book_ask
          | some index => md.order_book_ask.set index (rate, amount))) →
          b.Pairwise (fun a b : Entry => a.1 < b.1) := by
        intro b hb
        cases hidx : get_index rate md.order_book_ask false with
        | none =>
          rw [hidx] at hb
          subst hb
          exact addAsc_pairwise hask
            (fun x hx => get_index_none_asc hask hidx x hx)
        | some index =>
          rw [hidx] at hb
          subst hb
          obtain ⟨x, hget, hx⟩ := get_index_some hidx
          exact set_pairwise_fst hget (by simpa using hx) hask
      revert h
      split
      all_goals
        intro h
        obtain rfl := Except.ok.inj h
        intro k md' hk
        by_cases hkq : k = (base, quote)
      · subst hkq
        rw [pyDictGet_set_self] at hk
        obtain rfl := Option.some_injective _ hk
        exact ⟨hbook _ rfl, hbid⟩
      · rw [pyDictGet_set_ne _ _ _ _ hkq] at hk
        exact hinv k md' hk
      · subst hkq
        rw [pyDictGet_set_self] at hk
        obtain rfl := Option.some_injective _ hk
        exact ⟨hbook _ rfl, hbid⟩
      · rw [pyDictGet_set_ne _ _ _ _ hkq] at hk
        exact hinv k md' hk
  | update_bid base quote rate amount =>
    simp only [update] at h
    cases hmd : pyDictGet st.data_store (base, quote) with
    | none => rw [hmd] at h; exact absurd h (by simp)
    | some md =>
      rw [hmd] at h
      dsimp only at h
      obtain ⟨hask, hbid⟩ := hinv (base, quote) md hmd
      have hbook : ∀ b, (b = (match get_index rate md.order_book_bid true with
          | none => addDesc (rate, amount) md.order_book_bid
          | some index => md.order_book_bid.set index (rate, amount))) →
          b.Pairwise (fun a b : Entry => a.1 > b.1) := by
        intro b hb
        cases hidx : get_index rate md.order_book_bid true with
        | none =>
          rw [hidx] at hb
          subst hb
          exact addDesc_pairwise hbid
            (fun x hx => get_index_none_desc hbid hidx x hx)
        | some index =>
          rw [hidx] at hb
          subst hb
          obtain ⟨x, hget, hx⟩ := get_index_some hidx
          exact set_pairwise_fst hget (by simpa using hx) hbid
      revert h
      split
      all_goals
        intro h
        obtain rfl := Except.ok.inj h
        intro k md' hk
        by_cases hkq : k = (base, quote)
      · subst hkq
        rw [pyDictGet_set_self] at hk
        obtain rfl := Option.some_injective _ hk
        exact ⟨hask, hbook _ rfl⟩
      · rw [pyDictGet_set_ne _ _ _ _ hkq] at hk
        exact hinv k md' hk
      · subst hkq
        rw [pyDictGet_set_self] at hk
        obtain rfl := Option.some_injective _ hk
        exact ⟨hask, hbook _ rfl⟩
      · rw [pyDictGet_set_ne _ _ _ _ hkq] at hk
        exact hinv k md' hk
  | remove_ask base quote rate =>
    simp only [update] at h
    cases hmd : pyDictGet st.data_store (base, quote) with
    | none => rw [hmd] at h; exact absurd h (by simp)
    | some md =>
      rw [hmd] at h
      dsimp only at h
      obtain ⟨hask, hbid⟩ := hinv (base, quote) md hmd
      cases hidx : get_index rate md.order_book_ask false with
      | none =>
        rw [hidx] at h
        dsimp only at h
        revert h
        split
        all_goals
          intro h
          obtain rfl := Except.ok.inj h
          exact fun k md' hk => hinv k md' hk
      | some index =>
        rw [hidx] at h
        dsimp only at h
        obtain rfl := Except.ok.inj h
        intro k md' hk
        by_cases hkq : k = (base, quote)
        · subst hkq
          rw [pyDictGet_set_self] at hk
          obtain rfl := Option.some_injective _ hk
          exact ⟨eraseIdx_pairwise index hask, hbid⟩
        · rw [pyDictGet_set_ne _ _ _ _ hkq] at hk
          exact hinv k md' hk
  | remove_bid base quote rate =>
    simp only [update] at h
    cases hmd : pyDictGet st.data_store (base, quote) with
    | none => rw [hmd] at h; exact absurd h (by simp)
    | some md =>
      rw [hmd] at h
      dsimp only at h
      obtain ⟨hask, hbid⟩ := hinv (base, quote) md hmd
      cases hidx : get_index rate md.order_book_bid true with
      | none =>
        rw [hidx] at h
        dsimp only at h
        revert h
        split
        all_goals
          intro h
          obtain rfl := Except.ok.inj h
          exact fun k md' hk => hinv k md' hk
      | some index =>
        rw [hidx] at h
        dsimp only at h
        obtain rfl := Except.ok.inj h
        intro k md' hk
        by_cases hkq : k = (base, quote)
        · subst hkq
          rw [pyDictGet_set_self] at hk
          obtain rfl := Option.some_injective _ hk
          exact ⟨hask, eraseIdx_pairwise index hbid⟩
        · rw [pyDictGet_set_ne _ _ _ _ hkq] at hk
          exact hinv k md' hk

lemma applyBatch_preserves_StoreInv {now : Int} :
    ∀ (muts : List Mutation) (st st' : OBState),
      StoreInv st → applyBatch st now muts = .ok st' → StoreInv st' := by
  intro muts
  induction muts with
  | nil =>
    intro st st' hinv h
    simp only [applyBatch] at h
    obtain rfl := Except.ok.inj h
    exact hinv
  | cons m rest ih =>
    intro st st' hinv h
    cases rest with
    | nil =>
      simp only [applyBatch] at h
      exact update_preserves_StoreInv hinv h
    | cons m2 rest2 =>
      simp only [applyBatch] at h
      cases hu : update st now m false with
      | error e => rw [hu] at h; exact absurd h (by simp)
      | ok st1 =>
        rw [hu] at h
        exact ih st1 st' (update_preserves_StoreInv hinv hu) h

lemma applyBatches_preserves_StoreInv {now : Int} :
    ∀ (frames : List (List Mutation)) (st st' : OBState),
      StoreInv st → applyBatches st now frames = .ok st' → StoreInv st' := by
  intro frames
  induction frames with
  | nil =>
    intro st st' hinv h
    simp only [applyBatches] at h
    obtain rfl := Except.ok.inj h
    exact hinv
  | cons b rest ih =>
    intro st st' hinv h
    simp only [applyBatches] at h
    by_cases hr : st.restart
    · rw [if_pos hr] at h
      obtain rfl := Except.ok.inj h
      exact hinv
    · rw [if_neg hr] at h
      cases hb : applyBatch st now b with
      | error e => rw [hb] at h; exact absurd h (by simp)
      | ok st1 =>
        rw [hb] at h
        exact ih st1 st' (applyBatch_preserves_StoreInv b st st1 hinv hb) h

lemma initialise_data_store_inv (markets : List MarketKey) (k : MarketKey)
    (md : MarketData) (h : pyDictGet (initialise_data_store markets) k = some md) :
    md.order_book_ask = [] ∧ md.order_book_bid = [] := by
  induction markets with
  | nil => simp [initialise_data_store, pyDictGet] at h
  | cons p rest ih =>
    simp only [initialise_data_store, List.map] at h ih
    simp only [pyDictGet] at h
    by_cases hp : p = k
    · rw [if_pos hp] at h
      obtain rfl := Option.some_injective _ h
      exact ⟨rfl, rfl⟩
    · rw [if_neg hp] at h
      exact ih h

/-! ### The claims -/

/-- C1: for every sequence of well-formed Bitfinex or Poloniex frames —
modelled as arbitrary batches of decoded mutations, a superset of everything
the two adapters emit — applied by the engine's `update` function to a
freshly initialised market store, every ladder of every market satisfies I1
(each price appears at most once per ladder) and I2 (ask ladder strictly
ascending by price, bid ladder strictly descending) after each frame.  The
frame list is universally quantified, so every prefix of a frame sequence is
an instance, which is exactly "after each frame". -/
theorem C1_ladder_invariants (markets : List MarketKey) (timeout now₀ now : Int)
    (frames : List (List Mutation)) (st' : OBState)
    (h : applyBatches
      { OrderBook_init markets timeout now₀ with
          data_store := initialise_data_store markets }
      now frames = .ok st') :
    ∀ k md, pyDictGet st'.data_store k = some md →
      ((md.order_book_ask.map Prod.fst).Nodup ∧
       (md.order_book_bid.map Prod.fst).Nodup) ∧
      ((md.order_book_ask.map Prod.fst).Pairwise (· < ·) ∧
       (md.order_book_bid.map Prod.fst).Pairwise (· > ·)) := by
  have hinv0 : StoreInv { OrderBook_init markets timeout now₀ with
      data_store := initialise_data_store markets } := by
    intro k md hk
    obtain ⟨ha, hb⟩ := initialise_data_store_inv markets k md hk
    exact ⟨by rw [ha]; exact List.Pairwise.nil, by rw [hb]; exact List.Pairwise.nil⟩
  have hinv := applyBatches_preserves_StoreInv frames _ st' hinv0 h
  intro k md hk
  obtain ⟨ha, hb⟩ := hinv k md hk
  have ha' : (md.order_book_ask.map Prod.fst).Pairwise (· < ·) :=
    List.pairwise_map.mpr ha
  have hb' : (md.order_book_bid.map Prod.fst).Pairwise (· > ·) :=
    List.pairwise_map.mpr hb
  exact ⟨⟨ha'.imp ne_of_lt, hb'.imp ne_of_gt⟩, ha', hb'⟩

/-- Witness for C1 at a concrete input: one market, one frame consisting of a
heartbeat mutation. -/
theorem C1_ladder_invariants_witness :
    applyBatches
      { OrderBook_init [("btc".toList, "usd".toList)] 10 0 with
          data_store := initialise_data_store [("btc".toList, "usd".toList)] }
      5 [[Mutation.heartbeat]]
      = .ok { OrderBook_init [("btc".toList, "usd".toList)] 10 0 with
          data_store := initialise_data_store [("btc".toList, "usd".toList)],
          last_heartbeat := 5 } ∧
    ((((⟨[], [], none, "inactive".toList⟩ : MarketData).order_book_ask.map Prod.fst).Nodup ∧
      (((⟨[], [], none, "inactive".toList⟩ : MarketData).order_book_bid.map Prod.fst)).Nodup) ∧
     ((((⟨[], [], none, "inactive".toList⟩ : MarketData).order_book_ask.map Prod.fst)).Pairwise (· < ·) ∧
      (((⟨[], [], none, "inactive".toList⟩ : MarketData).order_book_bid.map Prod.fst)).Pairwise (· > ·))) := by
  have heq : applyBatches
      { OrderBook_init [("btc".toList, "usd".toList)] 10 0 with
          data_store := initialise_data_store [("btc".toList, "usd".toList)] }
      5 [[Mutation.heartbeat]]
      = .ok { OrderBook_init [("btc".toList, "usd".toList)] 10 0 with
          data_store := initialise_data_store [("btc".toList, "usd".toList)],
          last_heartbeat := 5 } := by rfl
  refine ⟨heq, C1_ladder_invariants _ _ _ _ _ _ heq ("btc".toList, "usd".toList)
    ⟨[], [], none, "inactive".toList⟩ (by rfl)⟩

/-- C2: the crossing check of `verify_status` compares the whole
`[price, size]` entries with Python list comparison, so with equal top
prices it fires only when the top-ask size is at most the top-bid size.
First conjunct: minimum ask price equals maximum bid price (both `1`) with
ask size `5 > 2` bid size, and `verify_status` answers `ok` without setting
`restart` — refuting the claim.  Second conjunct: the same book with the
sizes swapped does set `restart` and raises OutOfSync, exhibiting the size
dependence. -/
theorem C2_crossed_book_check_is_size_dependent :
    verify_status
      { OrderBook_init [("btc".toList, "usd".toList)] 10 0 with
          data_store := [(("btc".toList, "usd".toList),
            ⟨[(1, 5)], [(1, 2)], none, "active".toList⟩)] }
      0 "btc".toList "usd".toList 10
      = ({ OrderBook_init [("btc".toList, "usd".toList)] 10 0 with
          data_store := [(("btc".toList, "usd".toList),
            ⟨[(1, 5)], [(1, 2)], none, "active".toList⟩)] }, .ok ()) ∧
    verify_status
      { OrderBook_init [("btc".toList, "usd".toList)] 10 0 with
          data_store := [(("btc".toList, "usd".toList),
            ⟨[(1, 2)], [(1, 5)], none, "active".toList⟩)] }
      0 "btc".toList "usd".toList 10
      = ({ OrderBook_init [("btc".toList, "usd".toList)] 10 0 with
          data_store := [(("btc".toList, "usd".toList),
            ⟨[(1, 2)], [(1, 5)], none, "active".toList⟩)],
          restart := true },
         .error (.orderBookOutOfSync "Inconsistent data in order book".toList)) := by
  constructor
  · rfl
  · rfl

/-- C3: on an active market with a fresh heartbeat, querying the depth at a
rate beyond the far end of a ladder makes the scan loop run off the list and
the function return Python's implicit `None` (`none`), not `0`: here the ask
ladder holds only price 5 and is queried at 7, the bid ladder holds only
price 1 and is queried at 0. -/
theorem C3_rate_amount_falls_off_returns_none :
    get_ask_rate_amount
      { OrderBook_init [("btc".toList, "usd".toList)] 10 0 with
          data_store := [(("btc".toList, "usd".toList),
            ⟨[(5, 1)], [(1, 2)], none, "active".toList⟩)] }
      0 "btc".toList "usd".toList 7 10
      = ({ OrderBook_init [("btc".toList, "usd".toList)] 10 0 with
          data_store := [(("btc".toList, "usd".toList),
            ⟨[(5, 1)], [(1, 2)], none, "active".toList⟩)] }, .ok none) ∧
    get_bid_rate_amount
      { OrderBook_init [("btc".toList, "usd".toList)] 10 0 with
          data_store := [(("btc".toList, "usd".toList),
            ⟨[(5, 1)], [(1, 2)], none, "active".toList⟩)] }
      0 "btc".toList "usd".toList 0 10
      = ({ OrderBook_init [("btc".toList, "usd".toList)] 10 0 with
          data_store := [(("btc".toList, "usd".toList),
            ⟨[(5, 1)], [(1, 2)], none, "active".toList⟩)] }, .ok none) := by
  constructor
  · rfl
  · rfl

/-- C4 counterexample: a batch whose last mutation is a `remove_ask` (for a
price absent from the ladder, as a first delta after subscription can be)
leaves the addressed market in status `'initialising'` — the engine promotes
only on `update_ask`/`update_bid` last mutations, refuting the claim's "for
every kind of last mutation". -/
theorem C4_counterexample_remove_does_not_promote :
    update
      { OrderBook_init [("btc".toList, "usd".toList)] 10 0 with
          data_store := [(("btc".toList, "usd".toList),
            ⟨[], [], none, "initialising".toList⟩)] }
      5 (Mutation.remove_ask "btc".toList "usd".toList 1) true
      = .ok { OrderBook_init [("btc".toList, "usd".toList)] 10 0 with
          data_store := [(("btc".toList, "usd".toList),
            ⟨[], [], none, "initialising".toList⟩)],
          last_heartbeat := 5, restart := true } ∧
    (pyDictGet
      ({ OrderBook_init [("btc".toList, "usd".toList)] 10 0 with
          data_store := [(("btc".toList, "usd".toList),
            ⟨[], [], none, "initialising".toList⟩)],
          last_heartbeat := 5, restart := true } : OBState).data_store
      ("btc".toList, "usd".toList)).map MarketData.status
      = some "initialising".toList := by
  have hgi : get_index (1 : ℚ) [] false = none := by
    rw [get_index]
    exact giLoop_stop _ _ _ _ _ (by simp)
  constructor
  · simp [update, pyDictGet, hgi, OrderBook_init]
  · rfl

/-- C4 amended: after the engine applies the last mutation of a batch, the
addressed market has been promoted to `'active'` when that mutation is an
`update_ask` or `update_bid`; a last mutation that is a `remove_ask`,
`remove_bid` or `heartbeat` leaves every market's status unchanged. -/
theorem C4_last_update_promotion :
    (∀ (st : OBState) (now : Int) (b q : PyStr) (r a : ℚ) (st' : OBState),
      update st now (Mutation.update_ask b q r a) true = .ok st' →
      (pyDictGet st'.data_store (b, q)).map MarketData.status
        = some "active".toList) ∧
    (∀ (st : OBState) (now : Int) (b q : PyStr) (r a : ℚ) (st' : OBState),
      update st now (Mutation.update_bid b q r a) true = .ok st' →
      (pyDictGet st'.data_store (b, q)).map MarketData.status
        = some "active".toList) ∧
    (∀ (st : OBState) (now : Int) (b q : PyStr) (r : ℚ) (st' : OBState),
      update st now (Mutation.remove_ask b q r) true = .ok st' →
      ∀ k, (pyDictGet st'.data_store k).map MarketData.status
        = (pyDictGet st.data_store k).map MarketData.status) ∧
    (∀ (st : OBState) (now : Int) (b q : PyStr) (r : ℚ) (st' : OBState),
      update st now (Mutation.remove_bid b q r) true = .ok st' →
      ∀ k, (pyDictGet st'.data_store k).map MarketData.status
        = (pyDictGet st.data_store k).map MarketData.status) ∧
    (∀ (st : OBState) (now : Int) (st' : OBState),
      update st now Mutation.heartbeat true = .ok st' →
      ∀ k, (pyDictGet st'.data_store k).map MarketData.status
        = (pyDictGet st.data_store k).map MarketData.status) := by
  refine ⟨?_, ?_, ?_, ?_, ?_⟩
  · intro st now b q r a st' h
    simp only [update] at h
    cases hmd : pyDictGet st.data_store (b, q) with
    | none => rw [hmd] at h; exact absurd h (by simp)
    | some md =>
      rw [hmd] at h
      dsimp only at h
      revert h
      split
      · intro h
        obtain rfl := Except.ok.inj h
        rw [pyDictGet_set_self]
        rfl
      · rename_i hcond
        intro h
        obtain rfl := Except.ok.inj h
        rw [pyDictGet_set_self]
        have hst : md.status = "active".toList := by
          by_contra hne
          exact hcond ⟨trivial, hne⟩
        simp [hst]
  · intro st now b q r a st' h
    simp only [update] at h
    cases hmd : pyDictGet st.data_store (b, q) with
    | none => rw [hmd] at h; exact absurd h (by simp)
    | some md =>
      rw [hmd] at h
      dsimp only at h
      revert h
      split
      · intro h
        obtain rfl := Except.ok.inj h
        rw [pyDictGet_set_self]
        rfl
      · rename_i hcond
        intro h
        obtain rfl := Except.ok.inj h
        rw [pyDictGet_set_self]
        have hst : md.status = "active".toList := by
          by_contra hne
          exact hcond ⟨trivial, hne⟩
        simp [hst]
  · intro st now b q r st' h k
    simp only [update] at h
    cases hmd : pyDictGet st.data_store (b, q) with
    | none => rw [hmd] at h; exact absurd h (by simp)
    | some md =>
      rw [hmd] at h
      dsimp only at h
      cases hidx : get_index r md.order_book_ask false with
      | none =>
        rw [hidx] at h
        dsimp only at h
        revert h
        split
        all_goals intro h; obtain rfl := Except.ok.inj h; rfl
      | some index =>
        rw [hidx] at h
        dsimp only at h
        obtain rfl := Except.ok.inj h
        by_cases hkq : k = (b, q)
        · subst hkq
          rw [pyDictGet_set_self, hmd]
          rfl
        · rw [pyDictGet_set_ne _ _ _ _ hkq]
  · intro st now b q r st' h k
    simp only [update] at h
    cases hmd : pyDictGet st.data_store (b, q) with
    | none => rw [hmd] at h; exact absurd h (by simp)
    | some md =>
      rw [hmd] at h
      dsimp only at h
      cases hidx : get_index r md.order_book_bid true with
      | none =>
        rw [hidx] at h
        dsimp only at h
        revert h
        split
        all_goals intro h; obtain rfl := Except.ok.inj h; rfl
      | some index =>
        rw [hidx] at h
        dsimp only at h
        obtain rfl := Except.ok.inj h
        by_cases hkq : k = (b, q)
        · subst hkq
          rw [pyDictGet_set_self, hmd]
          rfl
        · rw [pyDictGet_set_ne _ _ _ _ hkq]
  · intro st now st' h k
    simp only [update] at h
    obtain rfl := Except.ok.inj h
    rfl

/-- Witness for C4: applying an `update_ask` as last mutation to an
initialising market promotes it to active. -/
theorem C4_last_update_promotion_witness :
    update
      { OrderBook_init [("btc".toList, "usd".toList)] 10 0 with
          data_store := [(("btc".toList, "usd".toList),
            ⟨[], [], none, "initialising".toList⟩)] }
      5 (Mutation.update_ask "btc".toList "usd".toList 1 2) true
      = .ok { OrderBook_init [("btc".toList, "usd".toList)] 10 0 with
          data_store := [(("btc".toList, "usd".toList),
            ⟨[(1, 2)], [], none, "active".toList⟩)],
          last_heartbeat := 5 } ∧
    (pyDictGet
      ({ OrderBook_init [("btc".toList, "usd".toList)] 10 0 with
          data_store := [(("btc".toList, "usd".toList),
            ⟨[(1, 2)], [], none, "active".toList⟩)],
          last_heartbeat := 5 } : OBState).data_store
      ("btc".toList, "usd".toList)).map MarketData.status
      = some "active".toList := by
  have hgi : get_index (1 : ℚ) [] false = none := by
    rw [get_index]
    exact giLoop_stop _ _ _ _ _ (by simp)
  have heq : update
      { OrderBook_init [("btc".toList, "usd".toList)] 10 0 with
          data_store := [(("btc".toList, "usd".toList),
            ⟨[], [], none, "initialising".toList⟩)] }
      5 (Mutation.update_ask "btc".toList "usd".toList 1 2) true
      = .ok { OrderBook_init [("btc".toList, "usd".toList)] 10 0 with
          data_store := [(("btc".toList, "usd".toList),
            ⟨[(1, 2)], [], none, "active".toList⟩)],
          last_heartbeat := 5 } := by
    simp [update, pyDictGet, pyDictSet, hgi, addAsc]
  exact ⟨heq, C4_last_update_promotion.1 _ 5 _ _ 1 2 _ heq⟩

/-- C5: `verify_sequence` on a sequence gap.  The market's stored
`last_sequence` is 100 and the frame carries sequence 102; the source then
calls the non-existent `self.log`, so Python raises `AttributeError` before
either `self.restart = True` or the storing of the new sequence number
executes: the state comes back unchanged, with `restart` still `False` and
`last_sequence` still 100 — not 102 as the claim requires. -/
theorem C5_sequence_gap_crashes_before_restart :
    verify_sequence
      { OrderBook_init [("eth".toList, "btc".toList)] 10 0 with
          data_store := [(("eth".toList, "btc".toList),
            ⟨[], [], some 100, "active".toList⟩)] }
      102 "eth".toList "btc".toList
      = ({ OrderBook_init [("eth".toList, "btc".toList)] 10 0 with
          data_store := [(("eth".toList, "btc".toList),
            ⟨[], [], some 100, "active".toList⟩)] },
         .error (.attributeError
           "PoloniexOrderBook object has no attribute log".toList)) ∧
    ({ OrderBook_init [("eth".toList, "btc".toList)] 10 0 with
          data_store := [(("eth".toList, "btc".toList),
            ⟨[], [], some 100, "active".toList⟩)] } : OBState).restart = false ∧
    (pyDictGet
      ({ OrderBook_init [("eth".toList, "btc".toList)] 10 0 with
          data_store := [(("eth".toList, "btc".toList),
            ⟨[], [], some 100, "active".toList⟩)] } : OBState).data_store
      ("eth".toList, "btc".toList)).map MarketData.last_sequence
      = some (some 100) := by
  refine ⟨?_, rfl, rfl⟩
  rfl

/-- C6: the Bitfinex triple decoding table.  For a triple `(p, count,
amount)` of a known channel: `count = 0, amount = 1` gives `remove_bid p`;
`count = 0, amount = -1` gives `remove_ask p`; `count ≠ 0, amount > 0` gives
`update_bid p amount`; `count ≠ 0, amount < 0` gives `update_ask p |amount|`;
and `count = 0` with any other amount raises the protocol error. -/
theorem C6_triple_decoding (b q : PyStr) (p count amount : ℚ) :
    (count = 0 → amount = 1 →
      process_single_update b q p count amount
        = .ok (.remove_bid b q p)) ∧
    (count = 0 → amount = -1 →
      process_single_update b q p count amount
        = .ok (.remove_ask b q p)) ∧
    (count ≠ 0 → 0 < amount →
      process_single_update b q p count amount
        = .ok (.update_bid b q p amount)) ∧
    (count ≠ 0 → amount < 0 →
      process_single_update b q p count amount
        = .ok (.update_ask b q p |amount|)) ∧
    (count = 0 → amount ≠ 1 → amount ≠ -1 →
      process_single_update b q p count amount
        = .error (.orderBookError "Unexpected data in delete command".toList)) := by
  refine ⟨?_, ?_, ?_, ?_, ?_⟩
  · intro h1 h2
    subst h1; subst h2
    rfl
  · intro h1 h2
    subst h1; subst h2
    rfl
  · intro h1 h3
    simp [process_single_update, h1, h3]
  · intro h1 h3
    simp [process_single_update, h1, lt_asymm h3]
  · intro h1 h2 h3
    simp [process_single_update, h1, h2, h3]

/-- Witness for C6: all five decoding branches at concrete triples. -/
theorem C6_triple_decoding_witness :
    process_single_update "eth".toList "btc".toList 5 0 1
      = .ok (.remove_bid "eth".toList "btc".toList 5) ∧
    process_single_update "eth".toList "btc".toList 5 0 (-1)
      = .ok (.remove_ask "eth".toList "btc".toList 5) ∧
    process_single_update "eth".toList "btc".toList 5 3 2
      = .ok (.update_bid "eth".toList "btc".toList 5 2) ∧
    process_single_update "eth".toList "btc".toList 5 3 (-2)
      = .ok (.update_ask "eth".toList "btc".toList 5 |(-2 : ℚ)|) ∧
    process_single_update "eth".toList "btc".toList 5 0 7
      = .error (.orderBookError "Unexpected data in delete command".toList) :=
  ⟨(C6_triple_decoding "eth".toList "btc".toList 5 0 1).1 rfl rfl,
   (C6_triple_decoding "eth".toList "btc".toList 5 0 (-1)).2.1 rfl rfl,
   (C6_triple_decoding "eth".toList "btc".toList 5 3 2).2.2.1
     (by norm_num) (by norm_num),
   (C6_triple_decoding "eth".toList "btc".toList 5 3 (-2)).2.2.2.1
     (by norm_num) (by norm_num),
   (C6_triple_decoding "eth".toList "btc".toList 5 0 7).2.2.2.2
     rfl (by norm_num) (by norm_num)⟩

/-- C7: for every market list and timeout, `BitfinexOrderBook(markets,
timeout)` constructs an engine instance, but `PoloniexOrderBook(markets,
timeout)` passes four positional arguments to `OrderBook.__init__`, which
accepts at most two, so Python raises `TypeError` and no instance is ever
produced — refuting the claim that both adapters construct successfully. -/
theorem C7_poloniex_constructor_raises (markets : List MarketKey) (timeout now : Int) :
    PoloniexOrderBook_init markets timeout now
      = .error (.typeError
        "init takes from 2 to 3 positional arguments but 5 were given".toList) ∧
    BitfinexOrderBook_init markets timeout now
      = .ok { ob := OrderBook_init markets timeout now, channel_id_to_market := [] } :=
  ⟨rfl, rfl⟩

/-- C8: a Bitfinex update frame addressing a channel id that was never
recorded makes `process_update` raise a bare `KeyError` (line 158 of
`bitfinex.py` accesses the dict without a guard), and the engine's receive
loop catches only `OrderBookError`, so the `KeyError` propagates out of
`run()` uncaught instead of setting `restart` — refuting the claim.  The
final conjunct shows the catch the claim describes does fire for
`OrderBookError`. -/
theorem C8_unknown_channel_keyerror_uncaught :
    bitfinex_process_update
      { ob := OrderBook_init [] 10 0, channel_id_to_market := [] }
      [BfxVal.int 5, BfxVal.str "hb".toList]
      = .error .keyError ∧
    receive_step (OrderBook_init [] 10 0) 0 (.error .keyError)
      = .error .keyError ∧
    (∀ (st : OBState) (now : Int) (msg : PyStr),
      receive_step st now (.error (.orderBookError msg))
        = .ok { st with restart := true }) :=
  ⟨rfl, rfl, fun _ _ _ => rfl⟩

/-- Closed form of the failure loop below the cutoff: after `n ≤ 2000`
consecutive failures no exception has been raised and the stored delay is `0`
for `n ≤ 3`, else `min (n - 3) 5`. -/
lemma connect_fail_loop_ok (n : Nat) (hn : n ≤ 2000) :
    connect_fail_loop n = .ok (n, if n ≤ 3 then 0 else min (n - 3) 5) := by
  induction n with
  | zero => rfl
  | succ m ih =>
    rw [connect_fail_loop, ih (by omega)]
    simp only [connect_attempt_fail]
    by_cases h3 : m + 1 > 3
    · rw [if_pos h3, if_neg (by omega : ¬ m + 1 > 2000),
        if_neg (by omega : ¬ m + 1 ≤ 3)]
    · rw [if_neg h3, if_neg (by omega : ¬ m + 1 > 2000),
        if_pos (by omega : m + 1 ≤ 3), if_pos (by omega : m ≤ 3)]

/-- The 2,001st consecutive failure raises the terminal error. -/
lemma connect_fail_loop_2001 :
    connect_fail_loop 2001
      = .error (.orderBookError
        "Failed to connect with the websocket after 2000 tries".toList) := by
  rw [show (2001 : Nat) = 2000 + 1 from rfl, connect_fail_loop,
    connect_fail_loop_ok 2000 (by norm_num)]
  norm_num [connect_attempt_fail]

/-- C9: the connection-loop backoff schedule and the retry bound.  After `n`
consecutive failures the stored delay (slept before the next attempt) is `0`
for `n ≤ 3`, `n - 3` for `4 ≤ n ≤ 7` and `5` for `n ≥ 8` — as the claim
says — but after 2,000 consecutive failures the loop is still alive (the
guard is `connection_tries > 2000`) and the terminal `OrderBookError` is
raised only on the 2,001st failure, refuting the claim's "after 2,000
consecutive failures the engine fails terminally". -/
theorem C9_retry_schedule_and_off_by_one :
    connect_fail_loop 1 = .ok (1, 0) ∧
    connect_fail_loop 3 = .ok (3, 0) ∧
    connect_fail_loop 4 = .ok (4, 1) ∧
    connect_fail_loop 5 = .ok (5, 2) ∧
    connect_fail_loop 7 = .ok (7, 4) ∧
    connect_fail_loop 8 = .ok (8, 5) ∧
    connect_fail_loop 100 = .ok (100, 5) ∧
    connect_fail_loop 2000 = .ok (2000, 5) ∧
    connect_fail_loop 2001
      = .error (.orderBookError
        "Failed to connect with the websocket after 2000 tries".toList) := by
  refine ⟨rfl, rfl, rfl, rfl, rfl, rfl, ?_, ?_, connect_fail_loop_2001⟩
  · rw [connect_fail_loop_ok 100 (by norm_num)]
    norm_num
  · rw [connect_fail_loop_ok 2000 (by norm_num)]
    norm_num

/-- C10: the market-existence check of `verify_status` (line 220) looks the
market up with the query arguments exactly as given, without lowercasing, so
when every stored key is lowercase and the caller passes any other
letter-case, every query raises `OrderBookError` ("The market ... does not
exist") even though the later ladder lookups would have lowercased the
arguments. -/
theorem C10_query_case_sensitive (st : OBState) (now interval : Int)
    (b q : PyStr) (amount : Int) (rate : ℚ)
    (hne : st.data_store ≠ [])
    (hlow : ∀ kv ∈ st.data_store, pyLower kv.1.1 = kv.1.1 ∧ pyLower kv.1.2 = kv.1.2)
    (hdiff : (b, q) ≠ (pyLower b, pyLower q)) :
    get_top_asks st now b q amount interval
      = (st, .error (.orderBookError ("The market ".toList ++ pyUpper b ++
          " - ".toList ++ pyUpper q ++ " does not exist".toList))) ∧
    get_top_bids st now b q amount interval
      = (st, .error (.orderBookError ("The market ".toList ++ pyUpper b ++
          " - ".toList ++ pyUpper q ++ " does not exist".toList))) ∧
    get_middle st now b q interval
      = (st, .error (.orderBookError ("The market ".toList ++ pyUpper b ++
          " - ".toList ++ pyUpper q ++ " does not exist".toList))) ∧
    get_ask_rate_amount st now b q rate interval
      = (st, .error (.orderBookError ("The market ".toList ++ pyUpper b ++
          " - ".toList ++ pyUpper q ++ " does not exist".toList))) ∧
    get_bid_rate_amount st now b q rate interval
      = (st, .error (.orderBookError ("The market ".toList ++ pyUpper b ++
          " - ".toList ++ pyUpper q ++ " does not exist".toList))) := by
  have hnone : pyDictGet st.data_store (b, q) = none := by
    cases hmd : pyDictGet st.data_store (b, q) with
    | none => rfl
    | some md =>
      obtain ⟨h1, h2⟩ := hlow ((b, q), md) (pyDictGet_mem hmd)
      exact absurd (Prod.ext h1.symm h2.symm) hdiff
  have hlen : ¬ st.data_store.length = 0 := by
    simpa [List.length_eq_zero] using hne
  have hvs : verify_status st now b q interval
      = (st, .error (.orderBookError ("The market ".toList ++ pyUpper b ++
          " - ".toList ++ pyUpper q ++ " does not exist".toList))) := by
    simp only [verify_status]
    rw [if_neg hlen, hnone]
  refine ⟨?_, ?_, ?_, ?_, ?_⟩
  · simp only [get_top_asks]
    rw [hvs]
  · simp only [get_top_bids]
    rw [hvs]
  · simp only [get_middle]
    rw [hvs]
  · simp only [get_ask_rate_amount]
    rw [hvs]
  · simp only [get_bid_rate_amount]
    rw [hvs]

/-- Witness for C10: a store holding only the lowercase key
`("btc", "usd")`, queried with base currency `"BTC"`. -/
theorem C10_query_case_sensitive_witness :
    get_top_asks
      { OrderBook_init [("btc".toList, "usd".toList)] 10 0 with
          data_store := [(("btc".toList, "usd".toList),
            ⟨[], [], none, "active".toList⟩)] }
      0 "BTC".toList "usd".toList 1 10
      = ({ OrderBook_init [("btc".toList, "usd".toList)] 10 0 with
          data_store := [(("btc".toList, "usd".toList),
            ⟨[], [], none, "active".toList⟩)] },
         .error (.orderBookError ("The market ".toList ++ pyUpper "BTC".toList ++
           " - ".toList ++ pyUpper "usd".toList ++ " does not exist".toList))) ∧
    get_middle
      { OrderBook_init [("btc".toList, "usd".toList)] 10 0 with
          data_store := [(("btc".toList, "usd".toList),
            ⟨[], [], none, "active".toList⟩)] }
      0 "BTC".toList "usd".toList 10
      = ({ OrderBook_init [("btc".toList, "usd".toList)] 10 0 with
          data_store := [(("btc".toList, "usd".toList),
            ⟨[], [], none, "active".toList⟩)] },
         .error (.orderBookError ("The market ".toList ++ pyUpper "BTC".toList ++
           " - ".toList ++ pyUpper "usd".toList ++ " does not exist".toList))) := by
  have h := C10_query_case_sensitive
    { OrderBook_init [("btc".toList, "usd".toList)] 10 0 with
        data_store := [(("btc".toList, "usd".toList),
          ⟨[], [], none, "active".toList⟩)] }
    0 10 "BTC".toList "usd".toList 1 0
    (by decide) (by decide) (by decide)
  exact ⟨h.1, h.2.2.1⟩

end CryptoOrderBook
